import Mathlib

/-!
Verification of the two-pass assembler (`2PassAssemblerCode.py`).

The Python program is shallowly embedded below.  Python's insertion-ordered
dictionaries become association lists (`List (String × String)`); assignment to
an existing key updates the entry in place, assignment to a fresh key appends.
Python exceptions that the source does not catch are modelled by `Option`
(`none` = an uncaught exception aborts the pass); exceptions that the source
catches locally are modelled by the `Option` result of `evaluate_expression`.
Python string operations (`split`, `strip`, `replace`, `in`, `zfill`, `int`)
are modelled by executable functions over `List Char`.
-/

namespace TwoPass

/-! ## Python string primitives -/

def emptyS : String := ""

def spS : String := " "

def nlS : String := "\n"

def colonS : String := ":"

/-- Python `pat in s` (substring containment) over character lists. -/
def chContains (pat : List Char) : List Char → Bool
  | [] => pat.isEmpty
  | c :: rest => pat.isPrefixOf (c :: rest) || chContains pat rest

/-- Fuel-driven worker for Python `str.replace` (replace all non-overlapping
occurrences, scanning left to right).  The fuel is the length of the scanned
string, which bounds the number of steps. -/
def chReplaceFuel : Nat → List Char → List Char → List Char → List Char
  | _, _, _, [] => []
  | 0, _, _, s => s
  | fuel + 1, pat, rep, c :: rest =>
    if pat ≠ [] ∧ pat.isPrefixOf (c :: rest) then
      rep ++ chReplaceFuel fuel pat rep (List.drop (pat.length - 1) rest)
    else
      c :: chReplaceFuel fuel pat rep rest

/-- Python `s.replace(pat, rep)` for a non-empty pattern. -/
def chReplace (s pat rep : List Char) : List Char := chReplaceFuel s.length pat rep s

/-- Python `s.split(sep)` for a one-character separator (keeps empty pieces). -/
def chSplitOn (sep : Char) : List Char → List (List Char)
  | [] => [[]]
  | c :: rest =>
    if c = sep then [] :: chSplitOn sep rest
    else
      match chSplitOn sep rest with
      | [] => [[c]]
      | g :: gs => (c :: g) :: gs

/-- Worker for Python `s.split()`: accumulate the current token (reversed). -/
def wsTokensAux : List Char → List Char → List (List Char)
  | [], acc => match acc with | [] => [] | _ => [acc.reverse]
  | c :: rest, acc =>
    if c.isWhitespace then
      match acc with
      | [] => wsTokensAux rest []
      | _ => acc.reverse :: wsTokensAux rest []
    else wsTokensAux rest (c :: acc)

/-- Python `s.split()` (split on whitespace runs, dropping empty tokens). -/
def wsTokens (cs : List Char) : List (List Char) := wsTokensAux cs []

/-- Python `s.split()` at the `String` level. -/
def pySplitWs (s : String) : List String := (wsTokens s.data).map (fun cs => (⟨cs⟩ : String))

/-- Python `s.strip()` (strip whitespace from both ends). -/
def pyStrip (s : String) : String :=
  ⟨((s.data.dropWhile Char.isWhitespace).reverse.dropWhile Char.isWhitespace).reverse⟩

/-- Python `s.strip(chars)` (strip any of the given characters from both ends). -/
def pyStripChars (set : List Char) (s : String) : String :=
  ⟨((s.data.dropWhile (set.contains ·)).reverse.dropWhile (set.contains ·)).reverse⟩

/-- Numeric value of a digit list (assumes digits). -/
def digitsVal (cs : List Char) : Nat := cs.foldl (fun acc c => acc * 10 + (c.toNat - 48)) 0

/-- Parse a non-empty all-digit character list. -/
def digitsToNat (cs : List Char) : Option Nat :=
  if cs.isEmpty then none
  else if cs.all Char.isDigit then some (digitsVal cs)
  else none

/-- Python `int(s)`: optional surrounding whitespace, optional sign, digits. -/
def pyInt? (s : String) : Option Int :=
  match (pyStrip s).data with
  | '-' :: rest => (digitsToNat rest).map (fun n => -(n : Int))
  | '+' :: rest => (digitsToNat rest).map (fun n => (n : Int))
  | cs => (digitsToNat cs).map (fun n => (n : Int))

/-- Python `s.zfill(width)`. -/
def zfill (width : Nat) (s : String) : String :=
  match s.data with
  | '-' :: rest => ⟨'-' :: (List.replicate (width - s.data.length) '0' ++ rest)⟩
  | '+' :: rest => ⟨'+' :: (List.replicate (width - s.data.length) '0' ++ rest)⟩
  | _ => ⟨List.replicate (width - s.data.length) '0' ++ s.data⟩

/-- Python `sep.join(pieces)`. -/
def joinWith (sep : String) : List String → String
  | [] => emptyS
  | [x] => x
  | x :: xs => x ++ sep ++ joinWith sep xs

/-- Python `list(keys).index(a)` (index of the first occurrence). -/
def listIndexOf (a : String) : List String → Nat
  | [] => 0
  | x :: xs => if x = a then 0 else listIndexOf a xs + 1

/-- Python `l[i]` with negative-index semantics; `none` models `IndexError`. -/
def pyIndex {α : Type} (l : List α) (i : Int) : Option α :=
  if 0 ≤ i then l.get? i.toNat
  else if 0 ≤ (l.length : Int) + i then l.get? ((l.length : Int) + i).toNat
  else none

/-! ## Insertion-ordered dictionaries (Python `dict`) -/

/-- Python `d.get(k)` / `d[k]` lookup on an insertion-ordered dict. -/
def odGet? (tbl : List (String × String)) (k : String) : Option String :=
  match tbl with
  | [] => none
  | p :: rest => if p.1 = k then some p.2 else odGet? rest k

/-- Python `k in d`. -/
def odHas (tbl : List (String × String)) (k : String) : Bool := (odGet? tbl k).isSome

/-- Python `d[k] = v`: update in place if the key exists, else append. -/
def odSet (tbl : List (String × String)) (k v : String) : List (String × String) :=
  if odHas tbl k then tbl.map (fun p => if p.1 = k then (k, v) else p)
  else tbl ++ [(k, v)]

/-! ## The assembler's constant tables (`Assembler` dataclass fields) -/

def mot : List (String × String) :=
  [(r"STOP", r"00"), (r"ADD", r"01"), (r"SUB", r"02"), (r"MULT", r"03"), (r"MOVER", r"04"),
   (r"MOVEM", r"05"), (r"COMP", r"06"), (r"BC", r"07"), (r"DIV", r"08"), (r"READ", r"09"),
   (r"PRINT", r"10")]

def pot : List (String × String) :=
  [(r"START", r"01"), (r"END", r"02"), (r"ORIGIN", r"03"), (r"EQU", r"04"), (r"LTORG", r"05")]

def dl : List (String × String) := [(r"DC", r"01"), (r"DS", r"02")]

def registers : List (String × String) :=
  [(r"AREG", r"01"), (r"BREG", r"02"), (r"CREG", r"03"), (r"DREG", r"04")]

/-- The mutable state created by `Assembler.__post_init__`. -/
structure Assembler where
  address : Int
  symbol_table : List (String × String)
  literal_table : List (String × String)
  duplicate_literals : List (String × String)
  pool_table : List Nat

def initAssembler : Assembler := ⟨0, [], [], [], []⟩

/-! ## Assembler operations -/

/-- `Assembler.process_label`. -/
def process_label (st : Assembler) (statement : String) : Assembler × String :=
  match (chSplitOn (':') statement.data).map (fun cs => pyStrip (⟨cs⟩ : String)) with
  | label :: rest :: _ =>
    ({ st with symbol_table := odSet st.symbol_table label (toString st.address) }, rest)
  | _ => (st, statement)

/-- `statement.replace(',', ' ').split()`. -/
def pyTokens (s : String) : List String :=
  (wsTokens (chReplace s.data ([',']) ([' ']))).map (fun cs => (⟨cs⟩ : String))

/-- `Assembler.add_literal`; returns the 1-based index reported to the caller. -/
def add_literal (st : Assembler) (literal : String) : Assembler × Nat :=
  if odHas st.literal_table literal then
    let stripped := pyStripChars (['\'']) literal
    let st2 := { st with
      duplicate_literals := odSet st.duplicate_literals literal stripped,
      literal_table := odSet st.literal_table stripped emptyS }
    (st2, listIndexOf stripped (st2.literal_table.map (fun p => p.1)) + 1)
  else
    let st2 := { st with literal_table := odSet st.literal_table literal emptyS }
    (st2, st2.literal_table.length)

/-- The symbol-substitution loop of `Assembler.evaluate_expression`: replace, in
table order, every resolved symbol's value for occurrences of its name, testing
occurrence against the original expression as the source does. -/
def substituteAll (tbl : List (String × String)) (expr : String) : String :=
  tbl.foldl
    (fun modified p =>
      if chContains p.1.data expr.data ∧ p.2 ≠ emptyS then
        (⟨chReplace modified.data p.1.data p.2.data⟩ : String)
      else modified)
    expr

/-- `Assembler.evaluate_expression`; `none` models the raised `ValueError`. -/
def evaluate_expression (st : Assembler) (expr : String) : Option Int :=
  match pyInt? expr with
  | some n => some n
  | none =>
    let modified := substituteAll st.symbol_table expr
    match pySplitWs modified with
    | [a, op, b] =>
      if op = "+" ∨ op = "-" then
        match pyInt? a, pyInt? b with
        | some l, some r => some (if op = "+" then l + r else l - r)
        | _, _ => none
      else pyInt? modified
    | _ => pyInt? modified

/-- One output line of `Assembler.allocate_literals`. -/
def litLine (addr : Int) (end_value lit : String) : String :=
  toString addr ++ " (AD," ++ end_value ++ ") - " ++ zfill 3 (pyStripChars (['\'', '=']) lit)

/-- Python `min(min_index, curr)` where `min_index` starts as `float('inf')`. -/
def minOpt : Option Nat → Nat → Option Nat
  | none, n => some n
  | some m, n => some (Nat.min m n)

structure AllocRes where
  tbl : List (String × String)
  lines : List String
  addr : Int
  minIdx : Option Nat

/-- The `for lit, value in self.literal_table.items()` loop of
`Assembler.allocate_literals`.  `keys` is the (unchanging) key sequence used by
`list(self.literal_table.keys()).index(lit)`. -/
def allocLoop (keys : List String) (end_value : String) :
    List (String × String) → Int → Option Nat → AllocRes
  | [], addr, mi => ⟨[], [], addr, mi⟩
  | p :: rest, addr, mi =>
    if p.2 = emptyS then
      let curr := listIndexOf p.1 keys + 1
      let r := allocLoop keys end_value rest (addr + 1) (minOpt mi curr)
      ⟨(p.1, toString addr) :: r.tbl, litLine addr end_value p.1 :: r.lines, r.addr, r.minIdx⟩
    else
      let r := allocLoop keys end_value rest addr mi
      ⟨(p.1, p.2) :: r.tbl, r.lines, r.addr, r.minIdx⟩

/-- `Assembler.allocate_literals`: returns the mutated state together with the
`('\n'.join(output_lines), self.address)` pair the source returns. -/
def allocate_literals (st : Assembler) (end_value : String) : Assembler × (String × Int) :=
  match st.literal_table with
  | [] => (st, (emptyS, st.address))
  | _ =>
    let r := allocLoop (st.literal_table.map (fun p => p.1)) end_value st.literal_table
      st.address none
    let pool :=
      match r.lines, r.minIdx with
      | _ :: _, some m => st.pool_table ++ [m]
      | _, _ => st.pool_table
    ({ st with literal_table := r.tbl, address := r.addr, pool_table := pool },
     (joinWith nlS r.lines, r.addr))

/-- Shared tail of `Assembler.handle_declaration` (after the optional label
binding): `dl` lookup, literal interning or storage reservation, and the
emitted record.  `none` models the uncaught `KeyError`/`ValueError`. -/
def declOut (st : Assembler) (parts : List String) (mnemonic value : String) :
    Option (Assembler × (String × String)) :=
  match odGet? dl mnemonic with
  | none => none
  | some dl_code =>
    if value.data.contains ('=') then
      let r := add_literal st value
      let out := toString r.1.address ++ " (DL," ++ dl_code ++ ") - (L," ++ toString r.2 ++ ")"
      some ({ r.1 with address := r.1.address + 1 }, (joinWith spS parts, out))
    else
      match (if dl_code = "01" then some (1 : Int) else pyInt? value) with
      | none => none
      | some size =>
        let out := toString st.address ++ " (DL," ++ dl_code ++ ") - " ++ zfill 3 value
        some ({ st with address := st.address + size }, (joinWith spS parts, out))

/-- `Assembler.handle_declaration`; `none` models the uncaught unpacking
`ValueError` for token counts other than 2 or 3. -/
def handle_declaration (st : Assembler) (parts : List String) :
    Option (Assembler × (String × String)) :=
  match parts with
  | [symbol, mnemonic, value] =>
    let st2 := { st with symbol_table := odSet st.symbol_table symbol (toString st.address) }
    declOut st2 parts mnemonic value
  | [mnemonic, value] => declOut st parts mnemonic value
  | _ => none

/-- `Assembler.handle_regular_instruction`. -/
def handle_regular_instruction (st : Assembler) (parts : List String)
    (original_statement : String) : Option (Assembler × (String × String)) :=
  if parts = [r"STOP"] then
    let out := toString st.address ++ " (IS," ++ ((odGet? mot (r"STOP")).getD emptyS) ++ ") - -"
    some ({ st with address := st.address + 1 }, (original_statement, out))
  else
    let pr :=
      match parts with
      | p0 :: p1 :: p2 :: rest =>
        if (odGet? mot p1).isSome then
          ({ st with symbol_table := odSet st.symbol_table p0 (toString st.address) },
           p1 :: p2 :: rest)
        else (st, parts)
      | _ => (st, parts)
    let st1 := pr.1
    match pr.2 with
    | [] => none
    | mnemonic :: restp =>
      let mot_code := (odGet? mot mnemonic).getD emptyS
      match restp with
      | [] => none
      | [target] =>
        let st2 :=
          if odHas st1.symbol_table target then st1
          else { st1 with symbol_table := odSet st1.symbol_table target emptyS }
        let out := toString st1.address ++ " (IS," ++ mot_code ++ ") - (S," ++
          toString (listIndexOf target (st2.symbol_table.map (fun p => p.1)) + 1) ++ ")"
        some ({ st2 with address := st2.address + 1 }, (original_statement, out))
      | p1 :: p2 :: _ =>
        let reg := (odGet? registers (pyStripChars ([',']) p1)).getD emptyS
        if p2.data.contains ('=') then
          let r := add_literal st1 p2
          let out := toString st1.address ++ " (IS," ++ mot_code ++ ") " ++ reg ++ " (L," ++
            toString r.2 ++ ")"
          some ({ r.1 with address := r.1.address + 1 }, (original_statement, out))
        else
          let st2 :=
            if odHas st1.symbol_table p2 then st1
            else { st1 with symbol_table := odSet st1.symbol_table p2 emptyS }
          let out := toString st1.address ++ " (IS," ++ mot_code ++ ") " ++ reg ++ " (S," ++
            toString (listIndexOf p2 (st2.symbol_table.map (fun p => p.1)) + 1) ++ ")"
          some ({ st2 with address := st2.address + 1 }, (original_statement, out))

/-- `parts[1] == 'EQU'`-style head test. -/
def headIs (x : String) : List String → Bool
  | y :: _ => y == x
  | [] => false

/-- `len(parts) > 1 and parts[1] in self.dl`. -/
def headInDl : List String → Bool
  | y :: _ => (odGet? dl y).isSome
  | [] => false

/-- `Assembler.parse_instruction`. -/
def parse_instruction (st : Assembler) (statement : String) :
    Option (Assembler × (String × String)) :=
  let original_statement := statement
  let pl := process_label st statement
  let st1 := pl.1
  match pyTokens pl.2 with
  | [] => some (st1, (original_statement, emptyS))
  | p0 :: rest =>
    if chContains (r"START").data p0.data then
      match rest with
      | p1 :: _ =>
        match pyInt? p1 with
        | some n =>
          let out := "(AD," ++ ((odGet? pot (r"START")).getD emptyS) ++ ") - (C, " ++
            toString n ++ ")"
          some ({ st1 with address := n }, (original_statement, out))
        | none => none
      | [] => none
    else if p0 = "END" then
      let r := allocate_literals st1 ((odGet? pot (r"END")).getD emptyS)
      let out :=
        if r.2.1 = emptyS then
          toString r.2.2 ++ " (AD," ++ ((odGet? pot (r"END")).getD emptyS) ++ ") - -"
        else r.2.1
      some (r.1, (original_statement, out))
    else if p0 = "LTORG" then
      let r := allocate_literals st1 ((odGet? pot (r"LTORG")).getD emptyS)
      some (r.1, (original_statement, r.2.1))
    else if p0 = "ORIGIN" then
      match evaluate_expression st1 (joinWith spS rest) with
      | some v => some ({ st1 with address := v }, (original_statement, emptyS))
      | none => some (st1, (original_statement, emptyS))
    else if headIs (r"EQU") rest then
      match evaluate_expression st1 (joinWith spS rest.tail) with
      | some v =>
        some ({ st1 with symbol_table := odSet st1.symbol_table p0 (toString v) },
              (original_statement, emptyS))
      | none => some (st1, (original_statement, emptyS))
    else if (odGet? dl p0).isSome || headInDl rest then
      handle_declaration st1 (p0 :: rest)
    else
      handle_regular_instruction st1 (p0 :: rest) original_statement

/-- The statement list Pass 1 iterates over:
`assembly_code.strip().split('\n')`, filtered by `if stmt.strip()`, each
statement passed on as `stmt.strip()`. -/
def stmtLines (assembly_code : String) : List String :=
  (((chSplitOn ('\n') (pyStrip assembly_code).data).map (fun cs => (⟨cs⟩ : String))).filter
    (fun stmt => pyStrip stmt ≠ emptyS)).map pyStrip

/-- The list comprehension of `Assembler.pass1`, threading the mutable state. -/
def pass1Go (st : Assembler) : List String → Option (Assembler × List (String × String))
  | [] => some (st, [])
  | stmt :: rest =>
    match parse_instruction st stmt with
    | none => none
    | some r =>
      match pass1Go r.1 rest with
      | none => none
      | some r2 => some (r2.1, r.2 :: r2.2)

/-- `Assembler.pass1`. -/
def pass1 (st : Assembler) (assembly_code : String) :
    Option (Assembler × List (String × String)) :=
  pass1Go st (stmtLines assembly_code)

/-- The generic cleaning of one token in `Assembler.pass2`:
`part.split(',')[1].strip('()') if ',' in part else part.strip('()')`. -/
def cleanedTok (part : String) : String :=
  if part.data.contains (',') then
    match chSplitOn (',') part.data with
    | _ :: x :: _ => pyStripChars (['(', ')']) (⟨x⟩ : String)
    | _ => emptyS
  else pyStripChars (['(', ')']) part

def cleanedLine (toks : List String) : String := joinWith spS (toks.map cleanedTok)

/-- The per-record body of `Assembler.pass2`; `none` models the uncaught
exceptions (unpacking errors, `int` failures, `IndexError`). -/
def resolveRecord (st : Assembler) (intermediate : String) : Option String :=
  let toks := pySplitWs intermediate
  let lc := match toks with | t :: _ => t | [] => emptyS
  if chContains (r"(S,").data intermediate.data || chContains (r"(L,").data intermediate.data then
    match toks with
    | _ :: p1 :: p2 :: p3 :: _ =>
      match chSplitOn (',') (pyStripChars (['(', ')']) p3).data with
      | [tt, idx] =>
        match pyInt? (⟨idx⟩ : String) with
        | none => none
        | some i =>
          let vals :=
            if (⟨tt⟩ : String) = "S" then st.symbol_table.map (fun p => p.2)
            else st.literal_table.map (fun p => p.2)
          match pyIndex vals (i - 1) with
          | none => none
          | some address =>
            match chSplitOn (',') p1.data with
            | _ :: x :: _ =>
              let out := lc ++ spS ++ pyStripChars ([')']) (⟨x⟩ : String) ++ spS ++
                pyStripChars (['(', ')']) p2 ++ spS ++ address
              some out
            | _ => none
      | _ => none
    | _ => some (cleanedLine toks)
  else some (cleanedLine toks)

/-- `Assembler.pass2`. -/
def pass2 (st : Assembler) : List (String × String) → Option (List (String × String))
  | [] => some []
  | pr :: rest =>
    if pr.2 = emptyS then
      match pass2 st rest with
      | none => none
      | some out => some ((pr.1, emptyS) :: out)
    else
      match resolveRecord st pr.2 with
      | none => none
      | some line =>
        match pass2 st rest with
        | none => none
        | some out => some ((pr.1, line) :: out)

/-! ## Demonstration program (`__main__`) -/

/-- The demonstration source program of the repository's `__main__` block. -/
def assembly_code : String := "START 100\nA DS 3\nL1: MOVER AREG, B\nADD AREG, C\nMOVEM AREG, D\nD EQU A + 1\nL2: PRINT D\nORIGIN A - 1\nC  DC '=5'\nORIGIN L2 + 1\nSTOP\nB DC '=19'\nEND"

/-- The two-line flush record emitted for the `END` statement of the demo. -/
def endRec : String := "109 (AD,02) - 005\n110 (AD,02) - 019"

/-! ## Specification-side definitions (written from the claims' wording) -/

/-- Number of still-unaddressed literals in the Literal Table. -/
def pendingCount (tbl : List (String × String)) : Nat :=
  (tbl.filter (fun p => p.2 = emptyS)).length

/-- The Literal Table after a flush, per the claim's wording: each
still-unaddressed literal, taken in table order, receives consecutive
addresses starting at `addr`, advancing by 1 per literal. -/
def allocSpecTable (addr : Int) : List (String × String) → List (String × String)
  | [] => []
  | p :: rest =>
    if p.2 = emptyS then (p.1, toString addr) :: allocSpecTable (addr + 1) rest
    else p :: allocSpecTable addr rest

/-- One output record per allocated literal, at the consecutive addresses. -/
def allocSpecLines (addr : Int) (end_value : String) : List (String × String) → List String
  | [] => []
  | p :: rest =>
    if p.2 = emptyS then litLine addr end_value p.1 :: allocSpecLines (addr + 1) end_value rest
    else allocSpecLines addr end_value rest

/-- The lowest (1-based) table index of a still-unaddressed literal, i.e. the
lowest index allocated by a flush; `none` when no literal is pending. -/
def firstPendingIdx : List (String × String) → Nat → Option Nat
  | [], _ => none
  | p :: rest, i => if p.2 = emptyS then some i else firstPendingIdx rest (i + 1)

/-- Minimum of two optional naturals (`none` = plus infinity). -/
def minOpt2 : Option Nat → Option Nat → Option Nat
  | none, b => b
  | some m, none => some m
  | some m, some n => some (Nat.min m n)

/-- The substituted operand is exactly three whitespace-separated tokens
`<int> op <int>` with `op ∈ {+, -}`. -/
def isPMForm (m : String) : Bool :=
  match pySplitWs m with
  | [a, op, b] => (op == "+" || op == "-") && (pyInt? a).isSome && (pyInt? b).isSome
  | _ => false

/-- The operand domain actually accepted by the evaluator: an integer literal,
or — after textually substituting the values of all resolved symbols occurring
in the original operand — a `<int> (+|-) <int>` form or an integer literal. -/
def acceptedOperand (st : Assembler) (e : String) : Bool :=
  (pyInt? e).isSome || isPMForm (substituteAll st.symbol_table e) ||
    (pyInt? (substituteAll st.symbol_table e)).isSome

/-! ## Concrete inputs used by counterexamples and witnesses -/

/-- A state whose Symbol Table holds `B` with the given (possibly blank)
address, as Pass 1 leaves it for a referenced-but-undefined symbol. -/
def stB (v : String) : Assembler := ⟨0, [((r"B"), v)], [], [], []⟩

/-- The intermediate record `MOVER AREG, B` produces for symbol index 1. -/
def recB : String := "100 (IS,04) 01 (S,1)"

def srcB : String := "MOVER AREG, B"

/-- A state with `A` resolved to address 100. -/
def stA : Assembler := ⟨0, [((r"A"), (r"100"))], [], [], []⟩

/-- A state with two pending literals, as just before the demo's END flush. -/
def stLit : Assembler := ⟨109, [], [((r"'=5'"), emptyS), ((r"'=19'"), emptyS)], [], []⟩

/-- A program interning the same literal text twice and then flushing. -/
def dupLitCode : String := "START 100\nMOVER AREG, '=5'\nMOVER AREG, '=5'\nLTORG"

/-- A program with a blank line and a whitespace-only line between statements. -/
def codeBlank : String := "STOP\n\n   \nSTOP"

/-! ## Claim C1 -/

/-- C1: evaluating `add_literal` at the failing input.  Interning `'=5'` from
an empty table returns index 1 with one table entry; interning the same text a
second time does NOT return the same index and does NOT leave the table size
unchanged: it inserts a second entry under the quote-stripped key `=5`, returns
index 2, and a subsequent flush allocates two distinct addresses, so two
instructions referencing `'=5'` reference two different pool slots. -/
theorem c1_duplicate_literal_behavior :
    (add_literal initAssembler (r"'=5'")).2 = 1 ∧
    (add_literal initAssembler (r"'=5'")).1.literal_table.length = 1 ∧
    (add_literal (add_literal initAssembler (r"'=5'")).1 (r"'=5'")).2 = 2 ∧
    (add_literal (add_literal initAssembler (r"'=5'")).1 (r"'=5'")).1.literal_table =
      [((r"'=5'"), emptyS), ((r"=5"), emptyS)] ∧
    (pass1 initAssembler dupLitCode).map
        (fun r => (r.1.literal_table, r.1.pool_table)) =
      some ([((r"'=5'"), (r"102")), ((r"=5"), (r"103"))], [1]) :=
  ⟨rfl, rfl, rfl, rfl, rfl⟩

/-! ## Claim C2 -/

/-- C2 counterexample: with symbol `B` still blank (unresolved), `pass2` does
not report any error for the record referencing it; it silently emits an
output record whose address field is empty (the text ends in a blank). -/
theorem c2_counterexample :
    pass2 (stB emptyS) [(srcB, recB)] = some [(srcB, (r"100 04 01 "))] := rfl

/-- C2 amended: `pass2` performs no unresolved-reference check at all.  For a
record referencing Symbol Table index 1, whatever address string `v` the table
holds — including the blank string left by an unresolved forward reference —
is spliced verbatim into the resolved record; entries that do carry addresses
are thereby resolved normally, and blank entries silently produce a record
with a missing (empty) address field. -/
theorem c2_amended (v : String) :
    pass2 (stB v) [(srcB, recB)] = some [(srcB, (r"100 04 01 " ++ v))] := rfl

/-! ## Claim C3 (counterexample; the amended theorem follows later) -/

/-- C3 counterexample: the operand `A` is neither an integer literal nor a
two-term `+`/`-` expression, yet with `A` resolved to `100` the evaluator
returns an integer instead of failing: the substitution step rewrites the
operand into `100`, which the final generic `int(...)` fallback accepts. -/
theorem c3_counterexample : evaluate_expression stA (r"A") = some 100 := rfl

/-! ## Claim C4 (counterexample; the amended theorem follows later) -/

/-- C4 counterexample: the statement `FOO X`, whose operation token `FOO` is
in no opcode/directive table, is not reported as an error: Pass 1 silently
emits an output record with an empty opcode field, `0 (IS,) - (S,1)`. -/
theorem c4_counterexample :
    parse_instruction initAssembler (r"FOO X") =
      some (⟨1, [((r"X"), emptyS)], [], [], []⟩, ((r"FOO X"), (r"0 (IS,) - (S,1)"))) := rfl

/-! ## Claim C5 -/

/-- C5 counterexample: running Pass 1 on the §8 round-trip source binds `D` to
address 101, not 104 as the claim states (the EQU line `D EQU A + 1` evaluates
`A + 1 = 100 + 1 = 101`). -/
theorem c5_counterexample :
    (pass1 initAssembler assembly_code).map (fun r => odGet? r.1.symbol_table (r"D")) =
      some (some (r"101")) ∧
    ¬((pass1 initAssembler assembly_code).map (fun r => odGet? r.1.symbol_table (r"D")) =
      some (some (r"104"))) := by
  constructor
  · rfl
  · intro h
    simp only [assembly_code] at h
    exact absurd h (by decide)

/-- C5 amended: the full behavior of both passes' Pass-1 stage on the §8
round-trip source: `A` is bound to 100 and `D` to 101 (not 104); `B` receives
storage address 108 on its declaration line (record `108 (DL,01) - (L,2)`);
`C`'s literal `'=5'` receives its own storage address 109 at the flush
triggered by `END` (first flush record `109 (AD,02) - 005`); and the Pool
Table ends with exactly one entry. -/
theorem c5_amended :
    pass1 initAssembler assembly_code =
      some (⟨111,
             [((r"A"), (r"100")), ((r"L1"), (r"103")), ((r"B"), (r"108")), ((r"C"), (r"99")),
              ((r"D"), (r"101")), ((r"L2"), (r"106"))],
             [((r"'=5'"), (r"109")), ((r"'=19'"), (r"110"))], [], [1]⟩,
            [((r"START 100"), (r"(AD,01) - (C, 100)")),
             ((r"A DS 3"), (r"100 (DL,02) - 003")),
             ((r"L1: MOVER AREG, B"), (r"103 (IS,04) 01 (S,3)")),
             ((r"ADD AREG, C"), (r"104 (IS,01) 01 (S,4)")),
             ((r"MOVEM AREG, D"), (r"105 (IS,05) 01 (S,5)")),
             ((r"D EQU A + 1"), emptyS),
             ((r"L2: PRINT D"), (r"106 (IS,10) - (S,5)")),
             ((r"ORIGIN A - 1"), emptyS),
             ((r"C DC '=5'"), (r"99 (DL,01) - (L,1)")),
             ((r"ORIGIN L2 + 1"), emptyS),
             ((r"STOP"), (r"107 (IS,00) - -")),
             ((r"B DC '=19'"), (r"108 (DL,01) - (L,2)")),
             ((r"END"), endRec)]) := rfl

/-! ## Claim C9 -/

/-- C9: whenever `pass2` completes on an input list, it produces exactly one
resolved record per intermediate record and in the same order: output position
`i` carries the same source text as input position `i`, and an input pair with
empty intermediate text is passed through unchanged as `(source, "")`. -/
theorem c9_pass2_shape (st : Assembler) (input out : List (String × String))
    (h : pass2 st input = some out) :
    out.length = input.length ∧
    ∀ i : Nat,
      (out.get? i).map (fun p => p.1) = (input.get? i).map (fun p => p.1) ∧
      ∀ pr, input.get? i = some pr → pr.2 = emptyS → out.get? i = some (pr.1, emptyS) := by
  induction input generalizing st out with
  | nil =>
    simp only [pass2, Option.some.injEq] at h
    subst h
    simp
  | cons pr rest ih =>
    simp only [pass2] at h
    by_cases hpr : pr.2 = emptyS
    · rw [if_pos hpr] at h
      cases hrec : pass2 st rest with
      | none => rw [hrec] at h; cases h
      | some out2 =>
        rw [hrec] at h
        simp only [Option.some.injEq] at h
        subst h
        obtain ⟨hlen, hidx⟩ := ih st out2 hrec
        refine ⟨by simp [hlen], ?_⟩
        intro i
        cases i with
        | zero =>
          refine ⟨rfl, ?_⟩
          intro pr' hpr' _
          simp only [List.get?] at hpr' ⊢
          cases hpr'
          rfl
        | succ n =>
          obtain ⟨h1, h2⟩ := hidx n
          exact ⟨h1, h2⟩
    · rw [if_neg hpr] at h
      cases hres : resolveRecord st pr.2 with
      | none => rw [hres] at h; cases h
      | some line =>
        rw [hres] at h
        cases hrec : pass2 st rest with
        | none => rw [hrec] at h; cases h
        | some out2 =>
          rw [hrec] at h
          simp only [Option.some.injEq] at h
          subst h
          obtain ⟨hlen, hidx⟩ := ih st out2 hrec
          refine ⟨by simp [hlen], ?_⟩
          intro i
          cases i with
          | zero =>
            refine ⟨rfl, ?_⟩
            intro pr' hpr' hempty
            simp only [List.get?] at hpr'
            cases hpr'
            exact absurd hempty hpr
          | succ n =>
            obtain ⟨h1, h2⟩ := hidx n
            exact ⟨h1, h2⟩

/-- C9 witness: `pass2` at a concrete two-record input (both records empty)
yields two records, and the length equality of the theorem holds there. -/
theorem c9_pass2_shape_witness :
    ([((r"X"), emptyS), ((r"Y"), emptyS)] : List (String × String)).length =
      ([((r"X"), emptyS), ((r"Y"), emptyS)] : List (String × String)).length :=
  (c9_pass2_shape initAssembler [((r"X"), emptyS), ((r"Y"), emptyS)]
    [((r"X"), emptyS), ((r"Y"), emptyS)] rfl).1

/-! ## Claim C10 -/

/-- The shape of the Pass-1 fold: one output pair per statement, in order,
each pair produced by `parse_instruction` on the positionally matching
statement. -/
lemma pass1Go_shape (stmts : List String) :
    ∀ (st st2 : Assembler) (pairs : List (String × String)),
      pass1Go st stmts = some (st2, pairs) →
      pairs.length = stmts.length ∧
      ∀ i pr, pairs.get? i = some pr →
        ∃ s1 s2 stmt, stmts.get? i = some stmt ∧ parse_instruction s1 stmt = some (s2, pr) := by
  induction stmts with
  | nil =>
    intro st st2 pairs h
    simp only [pass1Go, Option.some.injEq, Prod.mk.injEq] at h
    obtain ⟨_, h2⟩ := h
    subst h2
    simp
  | cons stmt rest ih =>
    intro st st2 pairs h
    simp only [pass1Go] at h
    cases hp : parse_instruction st stmt with
    | none => rw [hp] at h; cases h
    | some r =>
      rw [hp] at h
      dsimp only at h
      cases hrec : pass1Go r.1 rest with
      | none => rw [hrec] at h; cases h
      | some r2 =>
        rw [hrec] at h
        simp only [Option.some.injEq, Prod.mk.injEq] at h
        obtain ⟨_, h2⟩ := h
        subst h2
        obtain ⟨hlen, hidx⟩ := ih r.1 r2.1 r2.2 hrec
        refine ⟨by simp [hlen], ?_⟩
        intro i pr hpr
        cases i with
        | zero =>
          simp only [List.get?] at hpr
          cases hpr
          exact ⟨st, r.1, stmt, rfl, hp⟩
        | succ n =>
          obtain ⟨s1, s2, stmt', h1, h2⟩ := hidx n pr hpr
          exact ⟨s1, s2, stmt', h1, h2⟩

/-- C10: whenever Pass 1 completes, it emits exactly one `(source,
intermediate)` pair per non-blank source line (blank and whitespace-only lines
contribute nothing, not even an empty record), in input order: `stmtLines`
is precisely the stripped non-blank line list the source iterates over, the
output length equals its length, and the `i`-th output pair is the
`parse_instruction` result of the `i`-th non-blank line. -/
theorem c10_pass1_nonblank (st st2 : Assembler) (code : String)
    (pairs : List (String × String)) (h : pass1 st code = some (st2, pairs)) :
    pairs.length = (stmtLines code).length ∧
    ∀ i pr, pairs.get? i = some pr →
      ∃ s1 s2 stmt, (stmtLines code).get? i = some stmt ∧
        parse_instruction s1 stmt = some (s2, pr) :=
  pass1Go_shape (stmtLines code) st st2 pairs h

/-- C10 witness: a four-line input whose middle two lines are blank and
whitespace-only produces exactly two output pairs. -/
theorem c10_pass1_nonblank_witness :
    ([((r"STOP"), (r"0 (IS,00) - -")), ((r"STOP"), (r"1 (IS,00) - -"))] :
      List (String × String)).length = (stmtLines codeBlank).length :=
  (c10_pass1_nonblank initAssembler ⟨2, [], [], [], []⟩ codeBlank
    [((r"STOP"), (r"0 (IS,00) - -")), ((r"STOP"), (r"1 (IS,00) - -"))] rfl).1

/-! ## Ordered-dictionary lemmas -/

lemma odGet?_none_forall {tbl : List (String × String)} {k : String}
    (h : odGet? tbl k = none) : ∀ p ∈ tbl, p.1 ≠ k := by
  induction tbl with
  | nil => intro p hp; cases hp
  | cons q rest ih =>
    intro p hp
    simp only [odGet?] at h
    by_cases hq : q.1 = k
    · rw [if_pos hq] at h; cases h
    · rw [if_neg hq] at h
      cases hp with
      | head => exact hq
      | tail _ hmem => exact ih h p hmem

lemma odHas_false {tbl : List (String × String)} {k : String}
    (h : odGet? tbl k = none) : odHas tbl k = false := by
  simp [odHas, h]

lemma odSet_absent {tbl : List (String × String)} {k : String} (v : String)
    (h : odHas tbl k = false) : odSet tbl k v = tbl ++ [(k, v)] := by
  simp [odSet, h]

lemma not_mem_keys {tbl : List (String × String)} {k : String}
    (h : odGet? tbl k = none) : k ∉ tbl.map (fun p => p.1) := by
  intro hmem
  obtain ⟨p, hp, hpk⟩ := List.mem_map.mp hmem
  exact odGet?_none_forall h p hp hpk

lemma listIndexOf_append_absent {a : String} {l : List String} (h : a ∉ l) :
    listIndexOf a (l ++ [a]) = l.length := by
  induction l with
  | nil => simp [listIndexOf]
  | cons x xs ih =>
    have hxa : x ≠ a := by intro he; exact h (he ▸ List.mem_cons_self x xs)
    have hxs : a ∉ xs := fun hm => h (List.mem_cons_of_mem x hm)
    simp [listIndexOf, hxa, ih hxs]

lemma odHas_of_mem {tbl : List (String × String)} {p : String × String}
    (hp : p ∈ tbl) : odHas tbl p.1 = true := by
  induction tbl with
  | nil => cases hp
  | cons q rest ih =>
    by_cases hq : q.1 = p.1
    · simp [odHas, odGet?, hq]
    · cases hp with
      | head => exact absurd rfl hq
      | tail _ hmem =>
        simpa [odHas, odGet?, hq] using ih hmem

/-! ## Claim C4 (amended theorem) -/

/-- C4 amended: an unknown operation token is NOT reported: for a two-token
statement `m t` whose token `m` appears in no opcode/directive table, the
assembler still emits an output record, with an empty opcode code spliced
where the machine-opcode would go (`(IS,)`), registering `t` as a symbol. -/
theorem c4_amended (st : Assembler) (m t original : String) (h : odGet? mot m = none) :
    handle_regular_instruction st [m, t] original =
      some (⟨st.address + 1,
             (if odHas st.symbol_table t then st.symbol_table
              else st.symbol_table ++ [(t, emptyS)]),
             st.literal_table, st.duplicate_literals, st.pool_table⟩,
            (original,
             toString st.address ++ " (IS," ++ emptyS ++ ") - (S," ++
               toString (listIndexOf t ((if odHas st.symbol_table t then st.symbol_table
                 else st.symbol_table ++ [(t, emptyS)]).map (fun p => p.1)) + 1) ++ ")")) := by
  have hne : ([m, t] : List String) ≠ [r"STOP"] := by simp
  by_cases hmem : odHas st.symbol_table t
  · simp only [handle_regular_instruction, if_neg hne]
    simp [h, hmem]
  · simp only [handle_regular_instruction, if_neg hne]
    simp [h, hmem, odSet_absent]

/-- C4 amended, witness: the unknown token `FOO` at the initial state yields
the record `0 (IS,) - (S,1)` — an emitted record, not an error. -/
theorem c4_amended_witness :
    handle_regular_instruction initAssembler [(r"FOO"), (r"X")] (r"FOO X") =
      some (⟨initAssembler.address + 1,
             (if odHas initAssembler.symbol_table (r"X") then initAssembler.symbol_table
              else initAssembler.symbol_table ++ [((r"X"), emptyS)]),
             initAssembler.literal_table, initAssembler.duplicate_literals,
             initAssembler.pool_table⟩,
            ((r"FOO X"),
             toString initAssembler.address ++ " (IS," ++ emptyS ++ ") - (S," ++
               toString (listIndexOf (r"X")
                 ((if odHas initAssembler.symbol_table (r"X") then initAssembler.symbol_table
                   else initAssembler.symbol_table ++ [((r"X"), emptyS)]).map
                   (fun p => p.1)) + 1) ++ ")")) :=
  c4_amended initAssembler (r"FOO") (r"X") (r"FOO X") rfl

/-! ## Splitting lemmas for label processing -/

lemma chSplitOn_no_sep (sep : Char) :
    ∀ cs : List Char, (∀ c ∈ cs, c ≠ sep) → chSplitOn sep cs = [cs] := by
  intro cs h
  induction cs with
  | nil => rfl
  | cons c rest ih =>
    have hc : c ≠ sep := h c (List.mem_cons_self c rest)
    have hrest := ih (fun d hd => h d (List.mem_cons_of_mem c hd))
    simp [chSplitOn, hc, hrest]

lemma chSplitOn_append (sep : Char) :
    ∀ a b : List Char, (∀ c ∈ a, c ≠ sep) →
      chSplitOn sep (a ++ sep :: b) = a :: chSplitOn sep b := by
  intro a
  induction a with
  | nil => intro b _; simp [chSplitOn]
  | cons c rest ih =>
    intro b h
    have hc : c ≠ sep := h c (List.mem_cons_self c rest)
    have hrest := ih b (fun d hd => h d (List.mem_cons_of_mem c hd))
    simp only [List.cons_append, chSplitOn, if_neg hc, List.append_eq, hrest]

/-! ## Claim C8 -/

/-- C8: forward references keep their table slot.  (1) A symbol `t` first seen
as an operand of a two-token instruction is appended to the Symbol Table with
a blank address, and the emitted record stores its positional index
`length + 1`.  (2) Processing the defining line `t:rest` later performs the
in-place dictionary write `symbol_table[t] = str(address)` (`odSet`).  (3) An
in-place write to the entry at position `i` preserves the key sequence — so
the symbol's positional index never changes — and Pass 2's lookup of position
`i` in the value sequence (as `pass2` does via `pyIndex`) yields exactly the
newly bound address. -/
theorem c8_forward_reference :
    (∀ (st : Assembler) (m t original : String) (st2 : Assembler) (pr : String × String),
       odGet? st.symbol_table t = none →
       handle_regular_instruction st [m, t] original = some (st2, pr) →
       st2.symbol_table = st.symbol_table ++ [(t, emptyS)] ∧
       pr.2 = toString st.address ++ " (IS," ++ (odGet? mot m).getD emptyS ++ ") - (S," ++
         toString (st.symbol_table.length + 1) ++ ")")
    ∧
    (∀ (st : Assembler) (t rest : String),
       (∀ c ∈ t.data, c ≠ ':') → (∀ c ∈ rest.data, c ≠ ':') →
       pyStrip t = t → pyStrip rest = rest →
       process_label st (t ++ colonS ++ rest) =
         ({ st with symbol_table := odSet st.symbol_table t (toString st.address) }, rest))
    ∧
    (∀ (tbl : List (String × String)) (t v old : String) (i : Nat),
       tbl.get? i = some (t, old) →
       (odSet tbl t v).map (fun p => p.1) = tbl.map (fun p => p.1) ∧
       pyIndex ((odSet tbl t v).map (fun p => p.2)) ((i : Int)) = some v) := by
  refine ⟨?_, ?_, ?_⟩
  · intro st m t original st2 pr hnone h
    have hne : ([m, t] : List String) ≠ [r"STOP"] := by simp
    have hmem : odHas st.symbol_table t = false := odHas_false hnone
    have habs := odSet_absent emptyS hmem
    have hidx : listIndexOf t (List.map (fun p => p.1) st.symbol_table ++ [t]) =
        st.symbol_table.length := by
      simpa using listIndexOf_append_absent (not_mem_keys hnone)
    simp only [handle_regular_instruction, if_neg hne] at h
    simp only [hmem, Bool.false_eq_true, if_false, habs, Option.some.injEq,
      Prod.mk.injEq] at h
    obtain ⟨h1, h2⟩ := h
    subst h1
    subst h2
    exact ⟨rfl, by simp [hidx]⟩
  · intro st t rest hct hcr hst hsr
    have hdata : (t ++ colonS ++ rest).data = t.data ++ ':' :: rest.data := by
      show (t.data ++ colonS.data) ++ rest.data = t.data ++ ':' :: rest.data
      simp [colonS]
    have hsplit : chSplitOn (':') (t ++ colonS ++ rest).data = t.data :: [rest.data] := by
      rw [hdata, chSplitOn_append (':') t.data rest.data hct,
          chSplitOn_no_sep (':') rest.data hcr]
    simp only [process_label, hsplit, List.map_cons, List.map_nil]
    rw [show pyStrip (⟨t.data⟩ : String) = t from hst,
        show pyStrip (⟨rest.data⟩ : String) = rest from hsr]
  · intro tbl t v old i hget
    have hmem : (t, old) ∈ tbl := List.get?_mem hget
    have hhas : odHas tbl t = true := odHas_of_mem hmem
    have hset : odSet tbl t v = tbl.map (fun p => if p.1 = t then (t, v) else p) := by
      simp [odSet, hhas]
    constructor
    · rw [hset, List.map_map]
      apply List.map_congr_left
      intro p _
      by_cases hp : p.1 = t
      · simp [hp]
      · simp [hp]
    · have : ((i : Int)).toNat = i := Int.toNat_natCast i
      simp only [pyIndex, Int.natCast_nonneg, if_true, this]
      rw [hset, List.map_map, List.get?_map, hget]
      simp

/-- C8 witness: the theorem's three parts at concrete inputs: `D` first
referenced by `PRINT D` is appended blank with stored index 1; the defining
line `D:STOP` performs the in-place write; and the in-place write at position
0 keeps the keys and makes the position-0 lookup return the new address. -/
theorem c8_forward_reference_witness :
    ((⟨1, [((r"D"), emptyS)], [], [], []⟩ : Assembler).symbol_table =
        initAssembler.symbol_table ++ [((r"D"), emptyS)] ∧
      ((r"PRINT D"), (r"0 (IS,10) - (S,1)")).2 =
        toString initAssembler.address ++ " (IS," ++ (odGet? mot (r"PRINT")).getD emptyS ++
          ") - (S," ++ toString (initAssembler.symbol_table.length + 1) ++ ")") ∧
    (process_label (stB emptyS) ((r"D") ++ colonS ++ (r"STOP")) =
      ({ stB emptyS with
          symbol_table := odSet (stB emptyS).symbol_table (r"D")
            (toString (stB emptyS).address) }, (r"STOP"))) ∧
    ((odSet [((r"D"), emptyS)] (r"D") (r"101")).map (fun p => p.1) =
        ([((r"D"), emptyS)] : List (String × String)).map (fun p => p.1) ∧
      pyIndex ((odSet [((r"D"), emptyS)] (r"D") (r"101")).map (fun p => p.2)) ((0 : Nat) : Int) =
        some (r"101")) :=
  ⟨c8_forward_reference.1 initAssembler (r"PRINT") (r"D") (r"PRINT D")
      ⟨1, [((r"D"), emptyS)], [], [], []⟩ ((r"PRINT D"), (r"0 (IS,10) - (S,1)")) rfl rfl,
   c8_forward_reference.2.1 (stB emptyS) (r"D") (r"STOP")
      (by decide) (by decide) rfl rfl,
   c8_forward_reference.2.2 [((r"D"), emptyS)] (r"D") (r"101") emptyS 0 rfl⟩

/-! ## Claim C6 -/

/-- C6: failed directive evaluation is caught, reported, and treated as a
no-op.  For an unlabelled `ORIGIN` statement whose expression fails to
evaluate, `parse_instruction` returns the state completely unchanged (in
particular the location counter keeps its previous value) together with an
empty intermediate record; likewise for an `EQU` statement whose right-hand
expression fails, the Symbol Table (indeed the whole state) is unchanged and
an empty record is emitted — in both cases the pass continues normally
(a `some` result, not an aborting `none`). -/
theorem c6_origin_equ_failure_noop :
    (∀ (st : Assembler) (s : String) (rest : List String),
       process_label st s = (st, s) →
       pyTokens s = (r"ORIGIN") :: rest →
       evaluate_expression st (joinWith spS rest) = none →
       parse_instruction st s = some (st, (s, emptyS)))
    ∧
    (∀ (st : Assembler) (s : String) (p0 : String) (rest : List String),
       process_label st s = (st, s) →
       pyTokens s = p0 :: (r"EQU") :: rest →
       chContains (r"START").data p0.data = false →
       p0 ≠ "END" → p0 ≠ "LTORG" → p0 ≠ "ORIGIN" →
       evaluate_expression st (joinWith spS rest) = none →
       parse_instruction st s = some (st, (s, emptyS))) := by
  constructor
  · intro st s rest hpl htok heval
    simp only [parse_instruction, hpl, htok]
    rw [if_neg (by decide), if_neg (by decide), if_neg (by decide)]
    simp only [if_true, heval]
  · intro st s p0 rest hpl htok hstart hend hltorg horigin heval
    simp only [parse_instruction, hpl, htok]
    rw [if_neg (by simp [hstart]), if_neg hend, if_neg hltorg, if_neg horigin]
    simp only [headIs, beq_self_eq_true, if_true, List.tail_cons, heval]

/-- C6 witness: `ORIGIN XYZ` and `Q EQU XYZ` at the initial state: the
undefined operand `XYZ` makes evaluation fail, and both statements leave the
state untouched while emitting an empty record. -/
theorem c6_origin_equ_failure_noop_witness :
    parse_instruction initAssembler (r"ORIGIN XYZ") =
      some (initAssembler, ((r"ORIGIN XYZ"), emptyS)) ∧
    parse_instruction initAssembler (r"Q EQU XYZ") =
      some (initAssembler, ((r"Q EQU XYZ"), emptyS)) :=
  ⟨c6_origin_equ_failure_noop.1 initAssembler (r"ORIGIN XYZ") [(r"XYZ")] rfl rfl rfl,
   c6_origin_equ_failure_noop.2 initAssembler (r"Q EQU XYZ") (r"Q") [(r"XYZ")] rfl rfl rfl
     (by decide) (by decide) (by decide) rfl⟩

/-! ## Lemmas about the flush loop -/

lemma minOpt2_none_right : ∀ m : Option Nat, minOpt2 m none = m
  | none => rfl
  | some _ => rfl

lemma firstPendingIdx_ge :
    ∀ (l : List (String × String)) (i j : Nat), firstPendingIdx l i = some j → i ≤ j := by
  intro l
  induction l with
  | nil => intro i j h; cases h
  | cons p rest ih =>
    intro i j h
    simp only [firstPendingIdx] at h
    by_cases hv : p.2 = emptyS
    · rw [if_pos hv] at h
      cases h
      exact le_refl i
    · rw [if_neg hv] at h
      exact le_trans (Nat.le_succ i) (ih (i + 1) j h)

lemma minOpt2_minOpt_collapse (mi : Option Nat) (c : Nat) (f : Option Nat)
    (hf : ∀ j, f = some j → c ≤ j) :
    minOpt2 (minOpt mi c) f = minOpt2 mi (some c) := by
  cases mi with
  | none =>
    cases f with
    | none => rfl
    | some j =>
      have := hf j rfl
      simp [minOpt, minOpt2, Nat.min_eq_left this]
  | some m =>
    cases f with
    | none => rfl
    | some j =>
      have hcj := hf j rfl
      have : Nat.min (Nat.min m c) j = Nat.min m c :=
        Nat.min_eq_left (le_trans (Nat.min_le_right m c) hcj)
      simp [minOpt, minOpt2, this]

lemma listIndexOf_append_not_mem {a : String} {A : List String} (B : List String)
    (h : a ∉ A) : listIndexOf a (A ++ B) = A.length + listIndexOf a B := by
  induction A with
  | nil => simp
  | cons x xs ih =>
    have hxa : x ≠ a := fun he => h (he ▸ List.mem_cons_self x xs)
    have hxs : a ∉ xs := fun hm => h (List.mem_cons_of_mem x hm)
    simp [listIndexOf, hxa, ih hxs]
    omega

lemma allocSpecLines_length (end_value : String) :
    ∀ (l : List (String × String)) (addr : Int),
      (allocSpecLines addr end_value l).length = pendingCount l := by
  intro l
  induction l with
  | nil => intro addr; rfl
  | cons p rest ih =>
    intro addr
    by_cases hv : p.2 = emptyS
    · simp [allocSpecLines, hv, ih, pendingCount, List.filter_cons]
    · simp [allocSpecLines, hv, ih, pendingCount, List.filter_cons]

lemma allocSpecLines_nil_of (end_value : String) :
    ∀ (l : List (String × String)) (addr : Int) (i : Nat),
      firstPendingIdx l i = none → allocSpecLines addr end_value l = [] := by
  intro l
  induction l with
  | nil => intro addr i _; rfl
  | cons p rest ih =>
    intro addr i h
    simp only [firstPendingIdx] at h
    by_cases hv : p.2 = emptyS
    · rw [if_pos hv] at h; cases h
    · rw [if_neg hv] at h
      simp only [allocSpecLines, if_neg hv]
      exact ih addr (i + 1) h

lemma allocSpecLines_cons_of (end_value : String) :
    ∀ (l : List (String × String)) (addr : Int) (i j : Nat),
      firstPendingIdx l i = some j →
      allocSpecLines addr end_value l ≠ [] := by
  intro l
  induction l with
  | nil => intro addr i j h; cases h
  | cons p rest ih =>
    intro addr i j h
    simp only [firstPendingIdx] at h
    by_cases hv : p.2 = emptyS
    · simp [allocSpecLines, hv]
    · rw [if_neg hv] at h
      simpa [allocSpecLines, hv] using ih addr (i + 1) j h

/-- The flush loop computes exactly the claim-level allocation: consecutive
addresses in table order, one line per pending literal, and the running
minimum equal to the first pending index. -/
lemma allocLoop_eq (end_value : String) (keys : List String) (hnd : keys.Nodup) :
    ∀ (suf pre : List (String × String)) (addr : Int) (mi : Option Nat),
      keys = (pre ++ suf).map (fun p => p.1) →
      allocLoop keys end_value suf addr mi =
        ⟨allocSpecTable addr suf, allocSpecLines addr end_value suf,
         addr + (pendingCount suf : Int),
         minOpt2 mi (firstPendingIdx suf (pre.length + 1))⟩ := by
  intro suf
  induction suf with
  | nil =>
    intro pre addr mi _
    simp [allocLoop, allocSpecTable, allocSpecLines, pendingCount, firstPendingIdx,
      minOpt2_none_right]
  | cons p rest ih =>
    intro pre addr mi hkeys
    have hkeys' : keys = ((pre ++ [p]) ++ rest).map (fun q => q.1) := by
      rw [hkeys]; simp
    have hnotmem : p.1 ∉ pre.map (fun q => q.1) := by
      intro hmem
      rw [hkeys] at hnd
      simp only [List.map_append, List.map_cons] at hnd
      exact (List.disjoint_of_nodup_append hnd) hmem (List.mem_cons_self p.1 _)
    have hcurr : listIndexOf p.1 keys = pre.length := by
      rw [hkeys]
      simp only [List.map_append, List.map_cons]
      rw [listIndexOf_append_not_mem _ hnotmem]
      simp [listIndexOf]
    by_cases hv : p.2 = emptyS
    · have hrec := ih (pre ++ [p]) (addr + 1) (minOpt mi (pre.length + 1)) hkeys'
      simp only [allocLoop, if_pos hv, hcurr, hrec]
      simp only [allocSpecTable, allocSpecLines, firstPendingIdx, if_pos hv,
        AllocRes.mk.injEq]
      refine ⟨trivial, trivial, ?_, ?_⟩
      · simp only [pendingCount, List.filter_cons, hv, decide_True, if_pos, ite_true,
          List.length_cons]
        push_cast
        ring
      · rw [show (pre ++ [p]).length = pre.length + 1 from by simp]
        exact minOpt2_minOpt_collapse mi (pre.length + 1) _
          (fun j hj => le_trans (by omega) (firstPendingIdx_ge rest (pre.length + 1 + 1) j hj))
    · have hrec := ih (pre ++ [p]) addr mi hkeys'
      simp only [allocLoop, if_neg hv, hrec]
      simp only [allocSpecTable, allocSpecLines, firstPendingIdx, if_neg hv,
        AllocRes.mk.injEq]
      refine ⟨trivial, trivial, ?_, ?_⟩
      · simp [pendingCount, List.filter_cons, hv]
      · rw [show (pre ++ [p]).length = pre.length + 1 from by simp]

/-! ## Claim C7 -/

/-- C7: a flush (`allocate_literals`) assigns each still-unaddressed literal,
in table order, consecutive addresses starting at the current location counter
advancing by 1 per literal (`allocSpecTable`); it emits one record per
allocated literal (`allocSpecLines`, whose length is the pending count); the
returned counter advanced by exactly the number of allocated literals and
equals the state's new counter; exactly one Pool Table boundary — the lowest
allocated 1-based index, `firstPendingIdx` — is appended iff at least one
literal was pending (`Option.toList`); and the Symbol Table is untouched.
When nothing is pending this degenerates to no records, an unchanged counter
and no boundary. -/
theorem c7_allocate_literals_spec (st : Assembler) (end_value : String)
    (hnd : (st.literal_table.map (fun p => p.1)).Nodup) :
    (allocate_literals st end_value).1.literal_table =
        allocSpecTable st.address st.literal_table ∧
    (allocate_literals st end_value).2.1 =
        joinWith nlS (allocSpecLines st.address end_value st.literal_table) ∧
    (allocSpecLines st.address end_value st.literal_table).length =
        pendingCount st.literal_table ∧
    (allocate_literals st end_value).1.address =
        st.address + (pendingCount st.literal_table : Int) ∧
    (allocate_literals st end_value).2.2 = (allocate_literals st end_value).1.address ∧
    (allocate_literals st end_value).1.pool_table =
        st.pool_table ++ (firstPendingIdx st.literal_table 1).toList ∧
    (allocate_literals st end_value).1.symbol_table = st.symbol_table := by
  have h3 : (allocSpecLines st.address end_value st.literal_table).length
      = pendingCount st.literal_table :=
    allocSpecLines_length end_value st.literal_table st.address
  cases hlt : st.literal_table with
  | nil =>
    refine ⟨?_, ?_, by rw [← hlt]; exact h3, ?_, ?_, ?_, ?_⟩ <;>
      simp [allocate_literals, hlt, allocSpecTable, allocSpecLines, pendingCount,
        firstPendingIdx, joinWith]
  | cons q qs =>
    have hnd' : ((q :: qs).map (fun p => p.1)).Nodup := by rw [← hlt]; exact hnd
    have heq := allocLoop_eq end_value ((q :: qs).map (fun p => p.1)) hnd'
      (q :: qs) [] st.address none (by simp)
    simp only [List.length_nil, Nat.zero_add, List.map_cons] at heq
    have hpool : (allocate_literals st end_value).1.pool_table =
        st.pool_table ++ (firstPendingIdx (q :: qs) 1).toList := by
      rcases hfp : firstPendingIdx (q :: qs) 1 with _ | m
      · have hnil := allocSpecLines_nil_of end_value (q :: qs) st.address 1 hfp
        simp [allocate_literals, hlt, heq, minOpt2, hfp, hnil]
      · obtain ⟨l0, ltl, hL⟩ :
            ∃ l0 ltl, allocSpecLines st.address end_value (q :: qs) = l0 :: ltl := by
          cases hc : allocSpecLines st.address end_value (q :: qs) with
          | nil => exact absurd hc (allocSpecLines_cons_of end_value (q :: qs) st.address 1 m hfp)
          | cons a b => exact ⟨a, b, rfl⟩
        simp [allocate_literals, hlt, heq, minOpt2, hfp, hL]
    refine ⟨?_, ?_, by rw [← hlt]; exact h3, ?_, ?_, hpool, ?_⟩ <;>
      simp [allocate_literals, hlt, heq, minOpt2]

/-- C7 witness: the theorem at a concrete state with two pending literals at
counter 109: the new table, the joined two records, `pendingCount = 2`, the
advanced counter `111`, and the single pool boundary 1. -/
theorem c7_allocate_literals_spec_witness :
    (allocate_literals stLit (r"02")).1.literal_table =
        allocSpecTable stLit.address stLit.literal_table ∧
    (allocate_literals stLit (r"02")).2.1 =
        joinWith nlS (allocSpecLines stLit.address (r"02") stLit.literal_table) ∧
    (allocSpecLines stLit.address (r"02") stLit.literal_table).length =
        pendingCount stLit.literal_table ∧
    (allocate_literals stLit (r"02")).1.address =
        stLit.address + (pendingCount stLit.literal_table : Int) ∧
    (allocate_literals stLit (r"02")).2.2 = (allocate_literals stLit (r"02")).1.address ∧
    (allocate_literals stLit (r"02")).1.pool_table =
        stLit.pool_table ++ (firstPendingIdx stLit.literal_table 1).toList ∧
    (allocate_literals stLit (r"02")).1.symbol_table = stLit.symbol_table :=
  c7_allocate_literals_spec stLit (r"02") (by decide)

/-! ## Whitespace-token lemmas for the evaluator characterization -/

lemma digit_not_ws (c : Char) (h : c.isDigit = true) : c.isWhitespace = false := by
  cases hw : c.isWhitespace
  · rfl
  · exfalso
    have hc : ((c = ' ' ∨ c = '\t') ∨ c = '\r') ∨ c = '\n' := by
      simpa [Char.isWhitespace] using hw
    rcases hc with ((h1 | h1) | h1) | h1 <;> subst h1 <;> exact absurd h (by decide)

lemma digits_nonws {cs : List Char} {k : Nat} (h : digitsToNat cs = some k) :
    cs ≠ [] ∧ ∀ c ∈ cs, c.isWhitespace = false := by
  unfold digitsToNat at h
  by_cases he : cs.isEmpty
  · rw [if_pos he] at h; cases h
  · rw [if_neg he] at h
    by_cases hall : cs.all Char.isDigit
    · refine ⟨by simpa using he, fun c hc => digit_not_ws c (List.all_eq_true.mp hall c hc)⟩
    · rw [if_neg hall] at h; cases h

lemma wsTokensAux_all_ws_nil :
    ∀ l : List Char, (∀ c ∈ l, c.isWhitespace = true) → wsTokensAux l [] = [] := by
  intro l
  induction l with
  | nil => intro _; rfl
  | cons c rest ih =>
    intro h
    have hc : c.isWhitespace = true := h c (List.mem_cons_self c rest)
    simp only [wsTokensAux, hc, if_true]
    exact ih (fun d hd => h d (List.mem_cons_of_mem c hd))

lemma wsTokensAux_ws_skip :
    ∀ (l rest : List Char), (∀ c ∈ l, c.isWhitespace = true) →
      wsTokensAux (l ++ rest) [] = wsTokensAux rest [] := by
  intro l
  induction l with
  | nil => intro rest _; rfl
  | cons c tl ih =>
    intro rest h
    have hc : c.isWhitespace = true := h c (List.mem_cons_self c tl)
    simp only [List.cons_append, wsTokensAux, hc, if_true]
    exact ih rest (fun d hd => h d (List.mem_cons_of_mem c hd))

lemma wsTokensAux_nonws :
    ∀ (core rest acc : List Char), (∀ c ∈ core, c.isWhitespace = false) →
      wsTokensAux (core ++ rest) acc = wsTokensAux rest (core.reverse ++ acc) := by
  intro core
  induction core with
  | nil => intro rest acc _; rfl
  | cons c tl ih =>
    intro rest acc h
    have hc : c.isWhitespace = false := h c (List.mem_cons_self c tl)
    simp only [List.cons_append, wsTokensAux, hc, Bool.false_eq_true, if_false,
      List.append_eq]
    rw [ih rest (c :: acc) (fun d hd => h d (List.mem_cons_of_mem c hd))]
    simp

lemma wsTokensAux_trail :
    ∀ (l acc : List Char), acc ≠ [] → (∀ c ∈ l, c.isWhitespace = true) →
      wsTokensAux l acc = [acc.reverse] := by
  intro l
  induction l with
  | nil =>
    intro acc hacc _
    cases acc with
    | nil => exact absurd rfl hacc
    | cons a as => rfl
  | cons c tl ih =>
    intro acc hacc h
    have hc : c.isWhitespace = true := h c (List.mem_cons_self c tl)
    cases acc with
    | nil => exact absurd rfl hacc
    | cons a as =>
      simp only [wsTokensAux, hc, if_true]
      rw [wsTokensAux_all_ws_nil tl (fun d hd => h d (List.mem_cons_of_mem c hd))]

lemma wsTokens_single (lead core trail : List Char)
    (hl : ∀ c ∈ lead, c.isWhitespace = true) (ht : ∀ c ∈ trail, c.isWhitespace = true)
    (hc : ∀ c ∈ core, c.isWhitespace = false) (hne : core ≠ []) :
    wsTokens (lead ++ core ++ trail) = [core] := by
  unfold wsTokens
  rw [List.append_assoc, wsTokensAux_ws_skip lead (core ++ trail) hl,
      wsTokensAux_nonws core trail [] hc, List.append_nil,
      wsTokensAux_trail trail core.reverse (by simpa using hne) ht,
      List.reverse_reverse]

lemma strip_decomp (s : String) :
    ∃ lead trail : List Char,
      s.data = lead ++ (pyStrip s).data ++ trail ∧
      (∀ c ∈ lead, c.isWhitespace = true) ∧
      (∀ c ∈ trail, c.isWhitespace = true) := by
  have h1 : s.data.takeWhile Char.isWhitespace ++ s.data.dropWhile Char.isWhitespace
      = s.data := List.takeWhile_append_dropWhile _ _
  have h2 : (s.data.dropWhile Char.isWhitespace).reverse.takeWhile Char.isWhitespace ++
      (s.data.dropWhile Char.isWhitespace).reverse.dropWhile Char.isWhitespace =
      (s.data.dropWhile Char.isWhitespace).reverse := List.takeWhile_append_dropWhile _ _
  have hmid : s.data.dropWhile Char.isWhitespace =
      ((s.data.dropWhile Char.isWhitespace).reverse.dropWhile Char.isWhitespace).reverse ++
      ((s.data.dropWhile Char.isWhitespace).reverse.takeWhile Char.isWhitespace).reverse := by
    conv_lhs => rw [← List.reverse_reverse (s.data.dropWhile Char.isWhitespace), ← h2]
    rw [List.reverse_append]
  refine ⟨s.data.takeWhile Char.isWhitespace,
          ((s.data.dropWhile Char.isWhitespace).reverse.takeWhile Char.isWhitespace).reverse,
          ?_, ?_, ?_⟩
  · show s.data = s.data.takeWhile Char.isWhitespace ++
      ((s.data.dropWhile Char.isWhitespace).reverse.dropWhile Char.isWhitespace).reverse ++
      ((s.data.dropWhile Char.isWhitespace).reverse.takeWhile Char.isWhitespace).reverse
    conv_lhs => rw [← h1, hmid]
    rw [List.append_assoc]
  · exact fun c hcm => List.mem_takeWhile_imp hcm
  · intro c hcm
    rw [List.mem_reverse] at hcm
    exact List.mem_takeWhile_imp hcm

lemma pyInt_core_props (s : String) (n : Int) (h : pyInt? s = some n) :
    (pyStrip s).data ≠ [] ∧ ∀ c ∈ (pyStrip s).data, c.isWhitespace = false := by
  unfold pyInt? at h
  split at h
  · next rest heq =>
    cases hk : digitsToNat rest with
    | none => simp [hk] at h
    | some k =>
      obtain ⟨_, hnws⟩ := digits_nonws hk
      rw [heq]
      refine ⟨by simp, ?_⟩
      intro c hcm
      cases hcm with
      | head => decide
      | tail _ hm => exact hnws c hm
  · next rest heq =>
    cases hk : digitsToNat rest with
    | none => simp [hk] at h
    | some k =>
      obtain ⟨_, hnws⟩ := digits_nonws hk
      rw [heq]
      refine ⟨by simp, ?_⟩
      intro c hcm
      cases hcm with
      | head => decide
      | tail _ hm => exact hnws c hm
  · next =>
    cases hk : digitsToNat (pyStrip s).data with
    | none => simp [hk] at h
    | some k => exact digits_nonws hk

lemma pySplitWs_of_pyInt (s : String) (n : Int) (h : pyInt? s = some n) :
    pySplitWs s = [pyStrip s] := by
  obtain ⟨hne, hnws⟩ := pyInt_core_props s n h
  obtain ⟨lead, trail, hdecomp, hl, ht⟩ := strip_decomp s
  unfold pySplitWs
  rw [hdecomp, wsTokens_single lead (pyStrip s).data trail hl ht hnws hne]
  rfl

/-! ## Claim C3 (amended theorem) -/

/-- C3 amended: the exact acceptance domain of `evaluate_expression`.  It
returns an integer exactly when the operand is an integer literal, or when —
after textually substituting, in table order, each resolved symbol's value for
the occurrences of its name — the result is a three-token `<int> (+|-) <int>`
expression or itself parses as an integer (so e.g. a bare resolved symbol is
accepted); every other operand fails, with one undifferentiated error rather
than distinguished `MalformedExpression`/`UnresolvedReference` kinds. -/
theorem c3_amended (st : Assembler) (e : String) :
    (evaluate_expression st e).isSome = acceptedOperand st e := by
  unfold evaluate_expression acceptedOperand
  cases h0 : pyInt? e with
  | some n => simp
  | none =>
    simp only [Option.isSome_none, Bool.false_or]
    cases hs : pySplitWs (substituteAll st.symbol_table e) with
    | nil => simp [isPMForm, hs]
    | cons a tl =>
      cases tl with
      | nil => simp [isPMForm, hs]
      | cons b tl2 =>
        cases tl2 with
        | nil => simp [isPMForm, hs]
        | cons c tl3 =>
          have hint : pyInt? (substituteAll st.symbol_table e) = none := by
            cases hpi : pyInt? (substituteAll st.symbol_table e) with
            | none => rfl
            | some k =>
              have hone := pySplitWs_of_pyInt _ k hpi
              rw [hs] at hone
              cases hone
          cases tl3 with
          | nil =>
            by_cases hop : b = "+" ∨ b = "-"
            · simp only [hs, isPMForm, if_pos hop]
              cases hA : pyInt? a <;> cases hB : pyInt? c <;>
                simp [hop, hA, hB, hint, isPMForm, hs]
            · simp [hs, isPMForm, hint, hop]
          | cons d tl4 =>
            simp [hs, isPMForm, hint]

end TwoPass
